import Mathlib

/-!
Verification of the iterated prisoner's dilemma game engine and its
untrusted-strategy execution subsystem, as a shallow embedding of the
TypeScript sources (game engine, built-in strategies, code validator,
compiled-function cache, and worker pool manager).
-/

set_option linter.unusedVariables false

/-! ## Constants (src/constants: COOPERATE, DEFECT, SCORING) -/

def COOPERATE : String := "C"

def DEFECT : String := "D"

/-- The fixed payoff table, `SCORING` in the source: an ordered-pair key
"CC" | "DC" | "CD" | "DD" mapped to the (player A, player B) payoffs. -/
def SCORING : List (String × (Int × Int)) :=
  [("CC", (3, 3)), ("DC", (5, 1)), ("CD", (1, 5)), ("DD", (1, 1))]

/-- Lookup in the `SCORING` record; `none` models the JS `undefined` obtained
for a key outside the four move combinations. -/
def scoringLookup (k : String) : Option (Int × Int) :=
  (SCORING.find? (fun e => e.1 = k)).map (fun e => e.2)

/-! ## Player (src/game_components/player.tsx) -/

structure Player where
  name : String
  score : Int
  history : List String
deriving Repr, DecidableEq

/-- The `Player` constructor: it stores the name argument but sets
`score = 0` and `history = []`, ignoring the score and history arguments. -/
def Player.make (name : String) (score : Int) (history : List String) : Player :=
  { name := name, score := 0, history := [] }

def Player.addScore (p : Player) (s : Int) : Player :=
  { p with score := p.score + s }

def Player.addHistory (p : Player) (m : String) : Player :=
  { p with history := p.history ++ [m] }

/-! ## Built-in strategies
(src/game_components/strategies/alwayscooperate.tsx, alwaysdefect.tsx,
src/unnamed/part_002 TitForTat, src/game_components/strategies/resentful.tsx).
Each class's `strategy` method is modeled as a function of the opponent
history; `Resentful` additionally threads its private `opponent_defected`
flag explicitly. Each subclass constructor delegates to the `Player`
constructor with a hard-coded name (`AlwaysDefect` passes the literal
"AlwaysCooperate", as in the source). -/

def AlwaysCooperate.strategy (opponent_history : List String) : String := COOPERATE

def AlwaysCooperate.make (name : String) (score : Int) (history : List String) : Player :=
  Player.make "AlwaysCooperate" score history

def AlwaysDefect.strategy (opponent_history : List String) : String := DEFECT

def AlwaysDefect.make (name : String) (score : Int) (history : List String) : Player :=
  Player.make "AlwaysCooperate" score history

/-- TitForTat: cooperate on an empty history, else return
`opponent_history[opponent_history.length - 1]`. -/
def TitForTat.strategy (opponent_history : List String) : String :=
  if opponent_history.length = 0 then COOPERATE
  else opponent_history.getD (opponent_history.length - 1) ""

def TitForTat.make (name : String) (score : Int) (history : List String) : Player :=
  Player.make "TitForTat" score history

/-- Resentful `strategy` method: the first component is the returned move,
the second the updated private `opponent_defected` flag. -/
def Resentful.strategy (opponent_defected : Bool) (opponent_history : List String) :
    String × Bool :=
  if opponent_history.length = 0 then (COOPERATE, opponent_defected)
  else
    let flag := if opponent_history.contains DEFECT then true else opponent_defected
    if flag then (DEFECT, flag) else (COOPERATE, flag)

def Resentful.make (name : String) (score : Int) (history : List String) : Player :=
  Player.make "Resentful" score history

/-- A sequence of calls to one Resentful instance's `strategy` method:
returns the list of moves produced and the final `opponent_defected` flag. -/
def Resentful.run (opponent_defected : Bool) :
    List (List String) → List String × Bool
  | [] => ([], opponent_defected)
  | h :: t =>
    let r := Resentful.strategy opponent_defected h
    let rest := Resentful.run r.2 t
    (r.1 :: rest.1, rest.2)

/-! ## Game (src/game_components/game.tsx)
The two-element `players` array is modeled as the pair `p1`, `p2`; each
player's (subclass-polymorphic) `strategy` method is carried alongside as a
function field. -/

structure Game where
  p1 : Player
  p2 : Player
  strat1 : List String → String
  strat2 : List String → String

structure RoundResult where
  p1_choice : String
  p2_choice : String
  scores : Int × Int
deriving Repr, DecidableEq

/-- `Game.round`: each strategy sees the opponent's history, the payoff pair
is looked up under the concatenated choices, scores are added and the chosen
moves appended to each player's own history. A missing `SCORING` key (which
would make the JS code throw on `scores[0]` before mutating anything) is
modeled as `none`. -/
def Game.round (g : Game) : Option (Player × Player × RoundResult) :=
  let p1_choice := g.strat1 g.p2.history
  let p2_choice := g.strat2 g.p1.history
  match scoringLookup (p1_choice ++ p2_choice) with
  | none => none
  | some scores =>
    some ((g.p1.addScore scores.1).addHistory p1_choice,
          (g.p2.addScore scores.2).addHistory p2_choice,
          { p1_choice := p1_choice, p2_choice := p2_choice, scores := scores })

/-- Play `n` consecutive rounds, collecting each round's result record. -/
def Game.playRounds : Game → Nat → Option (Game × List RoundResult)
  | g, 0 => some (g, [])
  | g, n + 1 =>
    match g.round with
    | none => none
    | some (q1, q2, r) =>
      match Game.playRounds { g with p1 := q1, p2 := q2 } n with
      | none => none
      | some (g', rs) => some (g', r :: rs)

/-- The concrete game of claim C3: an AlwaysCooperate player versus an
AlwaysDefect player, both freshly constructed (score 0, empty history). -/
def gameACvsAD : Game :=
  { p1 := AlwaysCooperate.make "P1" 0 []
    p2 := AlwaysDefect.make "P2" 0 []
    strat1 := AlwaysCooperate.strategy
    strat2 := AlwaysDefect.strategy }

lemma game_round_eq (g : Game) (m1 m2 : String) (pay : Int × Int)
    (e1 : g.strat1 g.p2.history = m1) (e2 : g.strat2 g.p1.history = m2)
    (hk : scoringLookup (m1 ++ m2) = some pay) :
    g.round = some ((g.p1.addScore pay.1).addHistory m1,
                    (g.p2.addScore pay.2).addHistory m2,
                    { p1_choice := m1, p2_choice := m2, scores := pay }) := by
  simp only [Game.round, e1, e2, hk]

/-- C1: when both strategies choose a legal move, `Game.round` adds exactly the
payoff-table entry of the ordered move pair to each score (player A the first
component, player B the second), every payoff entry is positive, and neither
score decreases. -/
theorem game_round_scoring (g : Game)
    (h1 : g.strat1 g.p2.history = COOPERATE ∨ g.strat1 g.p2.history = DEFECT)
    (h2 : g.strat2 g.p1.history = COOPERATE ∨ g.strat2 g.p1.history = DEFECT) :
    (∀ e ∈ SCORING, 0 < e.2.1 ∧ 0 < e.2.2) ∧
    ∃ q1 q2 r, g.round = some (q1, q2, r) ∧
      scoringLookup (r.p1_choice ++ r.p2_choice) = some r.scores ∧
      q1.score = g.p1.score + r.scores.1 ∧
      q2.score = g.p2.score + r.scores.2 ∧
      g.p1.score ≤ q1.score ∧ g.p2.score ≤ q2.score := by
  refine ⟨by decide, ?_⟩
  rcases h1 with h1 | h1 <;> rcases h2 with h2 | h2
  · exact ⟨_, _, _, game_round_eq g _ _ (3, 3) h1 h2 (by decide), by decide,
      by simp [Player.addScore, Player.addHistory], by simp [Player.addScore, Player.addHistory],
      by simp [Player.addScore, Player.addHistory], by simp [Player.addScore, Player.addHistory]⟩
  · exact ⟨_, _, _, game_round_eq g _ _ (1, 5) h1 h2 (by decide), by decide,
      by simp [Player.addScore, Player.addHistory], by simp [Player.addScore, Player.addHistory],
      by simp [Player.addScore, Player.addHistory], by simp [Player.addScore, Player.addHistory]⟩
  · exact ⟨_, _, _, game_round_eq g _ _ (5, 1) h1 h2 (by decide), by decide,
      by simp [Player.addScore, Player.addHistory], by simp [Player.addScore, Player.addHistory],
      by simp [Player.addScore, Player.addHistory], by simp [Player.addScore, Player.addHistory]⟩
  · exact ⟨_, _, _, game_round_eq g _ _ (1, 1) h1 h2 (by decide), by decide,
      by simp [Player.addScore, Player.addHistory], by simp [Player.addScore, Player.addHistory],
      by simp [Player.addScore, Player.addHistory], by simp [Player.addScore, Player.addHistory]⟩

/-- C1 witness: the AlwaysCooperate-vs-AlwaysDefect game satisfies the
hypotheses, and the conclusion follows by the theorem. -/
theorem game_round_scoring_witness :
    (gameACvsAD.strat1 gameACvsAD.p2.history = COOPERATE ∨
       gameACvsAD.strat1 gameACvsAD.p2.history = DEFECT) ∧
    (gameACvsAD.strat2 gameACvsAD.p1.history = COOPERATE ∨
       gameACvsAD.strat2 gameACvsAD.p1.history = DEFECT) ∧
    ((∀ e ∈ SCORING, 0 < e.2.1 ∧ 0 < e.2.2) ∧
     ∃ q1 q2 r, gameACvsAD.round = some (q1, q2, r) ∧
       scoringLookup (r.p1_choice ++ r.p2_choice) = some r.scores ∧
       q1.score = gameACvsAD.p1.score + r.scores.1 ∧
       q2.score = gameACvsAD.p2.score + r.scores.2 ∧
       gameACvsAD.p1.score ≤ q1.score ∧ gameACvsAD.p2.score ≤ q2.score) :=
  ⟨Or.inl (by decide), Or.inr (by decide),
   game_round_scoring gameACvsAD (Or.inl (by decide)) (Or.inr (by decide))⟩

/-- C2: whenever `Game.round` completes, both players' histories grow by
exactly one element, namely the move each chose that round, and the previous
elements are untouched. -/
theorem game_round_history_growth (g : Game) (q1 q2 : Player) (r : RoundResult)
    (h : g.round = some (q1, q2, r)) :
    q1.history = g.p1.history ++ [r.p1_choice] ∧
    q2.history = g.p2.history ++ [r.p2_choice] ∧
    q1.history.length = g.p1.history.length + 1 ∧
    q2.history.length = g.p2.history.length + 1 := by
  unfold Game.round at h
  rcases hk : scoringLookup (g.strat1 g.p2.history ++ g.strat2 g.p1.history) with _ | pay <;>
    simp only [hk] at h
  · cases h
  · simp only [Option.some.injEq, Prod.mk.injEq] at h
    obtain ⟨h1, h2, h3⟩ := h
    subst h1; subst h2; subst h3
    simp [Player.addHistory, Player.addScore]

/-- C2 witness: one round of the concrete AlwaysCooperate-vs-AlwaysDefect game. -/
theorem game_round_history_growth_witness :
    gameACvsAD.round =
      some (⟨"AlwaysCooperate", 1, ["C"]⟩, ⟨"AlwaysCooperate", 5, ["D"]⟩,
            ⟨"C", "D", (1, 5)⟩) ∧
    ((⟨"AlwaysCooperate", 1, ["C"]⟩ : Player).history =
        gameACvsAD.p1.history ++ [(⟨"C", "D", (1, 5)⟩ : RoundResult).p1_choice] ∧
     (⟨"AlwaysCooperate", 5, ["D"]⟩ : Player).history =
        gameACvsAD.p2.history ++ [(⟨"C", "D", (1, 5)⟩ : RoundResult).p2_choice] ∧
     (⟨"AlwaysCooperate", 1, ["C"]⟩ : Player).history.length =
        gameACvsAD.p1.history.length + 1 ∧
     (⟨"AlwaysCooperate", 5, ["D"]⟩ : Player).history.length =
        gameACvsAD.p2.history.length + 1) :=
  ⟨by decide, game_round_history_growth gameACvsAD _ _ _ (by decide)⟩

/-- C3: AlwaysCooperate versus AlwaysDefect for 3 rounds: every round's
outcome is (C, D) with payoffs (1, 5), player A ends with score 3 and history
["C","C","C"], player B with score 15 and history ["D","D","D"]. -/
theorem cooperate_vs_defect_three_rounds :
    (gameACvsAD.playRounds 3).map
        (fun x => (x.1.p1, x.1.p2, x.2)) =
      some (⟨"AlwaysCooperate", 3, ["C", "C", "C"]⟩,
            ⟨"AlwaysCooperate", 15, ["D", "D", "D"]⟩,
            [⟨"C", "D", (1, 5)⟩, ⟨"C", "D", (1, 5)⟩, ⟨"C", "D", (1, 5)⟩]) := by
  decide

/-- C7: TitForTat cooperates on an empty history, repeats a trailing "D" as
Defect, and repeats a trailing "C" as Cooperate. -/
theorem titfortat_behavior :
    TitForTat.strategy [] = COOPERATE ∧
    (∀ opponent_history : List String,
       opponent_history.getLast? = some DEFECT →
       TitForTat.strategy opponent_history = DEFECT) ∧
    (∀ opponent_history : List String,
       opponent_history.getLast? = some COOPERATE →
       TitForTat.strategy opponent_history = COOPERATE) := by
  refine ⟨by decide, ?_, ?_⟩ <;> intro hist h <;>
    [skip; skip] <;>
  · have hne : hist ≠ [] := by rintro rfl; simp at h
    unfold TitForTat.strategy
    rw [if_neg (by simpa using hne), List.getD_eq_getElem?_getD,
        ← List.getLast?_eq_getElem?, h]
    rfl

/-- C7 witness: the three behaviors at concrete histories. -/
theorem titfortat_behavior_witness :
    TitForTat.strategy [] = COOPERATE ∧
    ((["C", "D"] : List String).getLast? = some DEFECT ∧
       TitForTat.strategy ["C", "D"] = DEFECT) ∧
    ((["D", "C"] : List String).getLast? = some COOPERATE ∧
       TitForTat.strategy ["D", "C"] = COOPERATE) :=
  ⟨titfortat_behavior.1,
   ⟨by decide, titfortat_behavior.2.1 ["C", "D"] (by decide)⟩,
   ⟨by decide, titfortat_behavior.2.2 ["D", "C"] (by decide)⟩⟩

lemma resentful_flag_mono (h : List String) :
    (Resentful.strategy true h).2 = true := by
  unfold Resentful.strategy
  split
  · rfl
  · split <;> simp_all

lemma resentful_observe_defect (flag : Bool) (h : List String)
    (hD : h.contains DEFECT = true) : (Resentful.strategy flag h).2 = true := by
  have hne : h.length ≠ 0 := by
    cases h with
    | nil => simp [List.contains] at hD
    | cons a t => simp
  unfold Resentful.strategy
  rw [if_neg hne]
  simp only [hD]
  split <;> simp_all

lemma resentful_triggered (h : List String) (hne : h ≠ []) :
    (Resentful.strategy true h).1 = DEFECT := by
  unfold Resentful.strategy
  rw [if_neg (by simpa using hne)]
  split <;> simp_all

lemma resentful_run_length (flag : Bool) (calls : List (List String)) :
    (Resentful.run flag calls).1.length = calls.length := by
  induction calls generalizing flag with
  | nil => rfl
  | cons h t ih => simp [Resentful.run, ih]

lemma resentful_run_triggered (calls : List (List String)) (j : Nat)
    (hj : j < calls.length) (hne : calls.getD j [] ≠ []) :
    (Resentful.run true calls).1.getD j "" = DEFECT := by
  induction calls generalizing j with
  | nil => simp at hj
  | cons h t ih =>
    cases j with
    | zero =>
      simp only [List.getD_cons_zero] at hne
      simp [Resentful.run, resentful_flag_mono, resentful_triggered h hne]
    | succ j =>
      simp only [List.getD_cons_succ] at hne
      simp only [List.length_cons, Nat.succ_lt_succ_iff] at hj
      simp only [Resentful.run, List.getD_cons_succ, resentful_flag_mono]
      exact ih j hj hne

/-- C8 counterexample: after a call that observed a history containing "D",
a later call on the same instance with an empty history returns Cooperate,
not Defect — the empty-history early return bypasses the grudge flag. -/
theorem resentful_forgets_on_empty_history :
    (["D"] : List String).contains DEFECT = true ∧
    (Resentful.run false [["D"], []]).1 = [DEFECT, COOPERATE] ∧
    COOPERATE ≠ DEFECT := by
  decide

/-- C8 (amended): once some call has observed a history containing "D",
every subsequent call on the same instance whose history is non-empty
returns Defect — even when that history's most recent move is "C". -/
theorem resentful_defect_persists (flag : Bool) (calls : List (List String))
    (i j : Nat) (hij : i < j) (hj : j < calls.length)
    (hD : (calls.getD i []).contains DEFECT = true)
    (hne : calls.getD j [] ≠ []) :
    (Resentful.run flag calls).1.getD j "" = DEFECT := by
  induction calls generalizing flag i j with
  | nil => simp at hj
  | cons h t ih =>
    cases j with
    | zero => omega
    | succ j =>
      simp only [List.getD_cons_succ] at hne
      simp only [List.length_cons, Nat.succ_lt_succ_iff] at hj
      cases i with
      | zero =>
        simp only [List.getD_cons_zero] at hD
        simp only [Resentful.run, List.getD_cons_succ,
          resentful_observe_defect flag h hD]
        exact resentful_run_triggered t j hj hne
      | succ i =>
        simp only [Nat.succ_lt_succ_iff] at hij
        simp only [List.getD_cons_succ] at hD
        simp only [Resentful.run, List.getD_cons_succ]
        exact ih _ i j hij hj hD hne

/-- C8 witness for the amended claim: observe "D" on the first call, then a
non-empty history ending in "C" on the second call still yields Defect. -/
theorem resentful_defect_persists_witness :
    0 < 1 ∧ 1 < 2 ∧
    (([["D"], ["C"]] : List (List String)).getD 0 []).contains DEFECT = true ∧
    ([["D"], ["C"]] : List (List String)).getD 1 [] ≠ [] ∧
    (Resentful.run false [["D"], ["C"]]).1.getD 1 "" = DEFECT :=
  ⟨by decide, by decide, by decide, by decide,
   resentful_defect_persists false [["D"], ["C"]] 0 1 (by decide) (by decide)
     (by decide) (by decide)⟩

/-- C10: the `Player` constructor ignores its score and history arguments,
always starting at score 0 with an empty history, and the built-in strategy
subclasses that delegate to it do the same. -/
theorem player_constructor_ignores_args (name : String) (score : Int)
    (history : List String) :
    (Player.make name score history).score = 0 ∧
    (Player.make name score history).history = [] ∧
    AlwaysCooperate.make name score history = ⟨"AlwaysCooperate", 0, []⟩ ∧
    AlwaysDefect.make name score history = ⟨"AlwaysCooperate", 0, []⟩ ∧
    TitForTat.make name score history = ⟨"TitForTat", 0, []⟩ ∧
    Resentful.make name score history = ⟨"Resentful", 0, []⟩ := by
  exact ⟨rfl, rfl, rfl, rfl, rfl, rfl⟩

/-! ## Code validator (src/utils/code-security.ts)
The denylist regexes are embedded as executable character-list matchers.
JS semantics captured: `\b` is a transition between word ([A-Za-z0-9_]) and
non-word characters, the `i` flag lower-cases ASCII letters on both sides,
`\s` is the JS whitespace class, and matching scans left to right. -/

def isWordChar (c : Char) : Bool :=
  ('a' ≤ c && c ≤ 'z') || ('A' ≤ c && c ≤ 'Z') || ('0' ≤ c && c ≤ '9') || c = '_'

def isJsSpaceChar (c : Char) : Bool :=
  c = ' ' || c = '\t' || c = '\n' || c = '\r' || c = '\x0b' || c = '\x0c' ||
  c = Char.ofNat 0xa0 || c = Char.ofNat 0xfeff || c = Char.ofNat 0x1680 ||
  (Char.ofNat 0x2000 ≤ c && c ≤ Char.ofNat 0x200a) ||
  c = Char.ofNat 0x2028 || c = Char.ofNat 0x2029 || c = Char.ofNat 0x202f ||
  c = Char.ofNat 0x205f || c = Char.ofNat 0x3000

def dropJsSpaces (s : List Char) : List Char := s.dropWhile isJsSpaceChar

/-- Match a literal pattern (given lower-case) case-insensitively at the head
of the input, returning the rest on success. -/
def matchLitCI : List Char → List Char → Option (List Char)
  | [], s => some s
  | _, [] => none
  | p :: ps, c :: cs => if c.toLower = p then matchLitCI ps cs else none

/-- Match a literal pattern case-sensitively at the head of the input. -/
def matchLitCS : List Char → List Char → Option (List Char)
  | [], s => some s
  | _, [] => none
  | p :: ps, c :: cs => if c = p then matchLitCS ps cs else none

def matchWordCI (w : String) (s : List Char) : Option (List Char) :=
  matchLitCI w.data s

def matchWordCS (w : String) (s : List Char) : Option (List Char) :=
  matchLitCS w.data s

/-- A `\b` immediately after a word: end of input or a non-word character. -/
def boundaryAfter : List Char → Bool
  | [] => true
  | c :: _ => !(isWordChar c)

def afterSpacesParen (s : List Char) : Bool :=
  match dropJsSpaces s with
  | '(' :: _ => true
  | _ => false

/-- Pattern `\b<w>\s*\(` (case-insensitive), e.g. `\beval\s*\(`. -/
def patWordCall (w : String) (s : List Char) : Bool :=
  match matchWordCI w s with
  | some rest => afterSpacesParen rest
  | none => false

/-- Pattern `\b<w>\b` (case-insensitive), e.g. `\bwindow\b`. -/
def patWordBounded (w : String) (s : List Char) : Bool :=
  match matchWordCI w s with
  | some rest => boundaryAfter rest
  | none => false

/-- Pattern `\bnew\s+Function\s*\(` (case-insensitive). -/
def patNewFunction (s : List Char) : Bool :=
  match matchWordCI "new" s with
  | some (c :: cs) =>
    if isJsSpaceChar c then
      match matchWordCI "function" (dropJsSpaces cs) with
      | some rest => afterSpacesParen rest
      | none => false
    else false
  | _ => false

/-- Pattern `\.\s*constructor\b` (case-insensitive). -/
def patDotConstructor (s : List Char) : Bool :=
  match s with
  | '.' :: rest =>
    match matchWordCI "constructor" (dropJsSpaces rest) with
    | some r2 => boundaryAfter r2
    | none => false
  | _ => false

/-- Pattern `\bconsole\s*\.\s*(log|warn|error|info|debug)` (case-insensitive). -/
def patConsoleCall (s : List Char) : Bool :=
  match matchWordCI "console" s with
  | some rest =>
    match dropJsSpaces rest with
    | '.' :: r2 =>
      let r3 := dropJsSpaces r2
      (matchWordCI "log" r3).isSome || (matchWordCI "warn" r3).isSome ||
      (matchWordCI "error" r3).isSome || (matchWordCI "info" r3).isSome ||
      (matchWordCI "debug" r3).isSome
    | _ => false
  | none => false

/-- Scan every position whose previous character is a non-word character
(the `\b` positions for a pattern starting with a word character). -/
def scanBoundaryAux (m : List Char → Bool) : Bool → List Char → Bool
  | _, [] => false
  | prevWord, c :: cs =>
    (!prevWord && m (c :: cs)) || scanBoundaryAux m (isWordChar c) cs

def scanWithBoundary (m : List Char → Bool) (s : List Char) : Bool :=
  scanBoundaryAux m false s

/-- Scan every position (for patterns that do not start with `\b`). -/
def scanAnywhere (m : List Char → Bool) : List Char → Bool
  | [] => false
  | c :: cs => m (c :: cs) || scanAnywhere m cs

/-- The `DANGEROUS_PATTERNS` denylist of code-security.ts, in source order. -/
def hasDangerousPattern (code : String) : Bool :=
  let s := code.data
  scanWithBoundary (patWordCall "eval") s ||
  scanWithBoundary (patWordCall "function") s ||
  scanWithBoundary patNewFunction s ||
  scanWithBoundary (patWordBounded "window") s ||
  scanWithBoundary (patWordBounded "document") s ||
  scanWithBoundary (patWordBounded "location") s ||
  scanWithBoundary (patWordCall "fetch") s ||
  scanWithBoundary (patWordBounded "xmlhttprequest") s ||
  scanWithBoundary (patWordCall "import") s ||
  scanWithBoundary (patWordCall "require") s ||
  scanWithBoundary (patWordBounded "process") s ||
  scanWithBoundary (patWordBounded "global") s ||
  scanWithBoundary (patWordBounded "this") s ||
  scanWithBoundary (patWordBounded "arguments") s ||
  scanAnywhere patDotConstructor s ||
  scanWithBoundary (patWordBounded "__proto__") s ||
  scanWithBoundary (patWordBounded "prototype") s ||
  scanWithBoundary patConsoleCall s

/-- Pattern `\bfunction\s+\w+\s*\(` (case-sensitive). -/
def patFunctionDecl (s : List Char) : Bool :=
  match matchWordCS "function" s with
  | some (c :: cs) =>
    if isJsSpaceChar c then
      match dropJsSpaces cs with
      | d :: ds =>
        isWordChar d &&
        (match dropJsSpaces (ds.dropWhile isWordChar) with
         | '(' :: _ => true
         | _ => false)
      | [] => false
    else false
  | _ => false

/-- After `\bconst\s+\w+\s*=\s*`, returns the remaining input, or `none`. -/
def afterConstAssign (s : List Char) : Option (List Char) :=
  match matchWordCS "const" s with
  | some (c :: cs) =>
    if isJsSpaceChar c then
      match dropJsSpaces cs with
      | d :: ds =>
        if isWordChar d then
          match dropJsSpaces (ds.dropWhile isWordChar) with
          | '=' :: r => some (dropJsSpaces r)
          | _ => none
        else none
      | [] => none
    else none
  | _ => none

/-- Pattern `\bconst\s+\w+\s*=\s*function\s*\(` (case-sensitive). -/
def patConstFunction (s : List Char) : Bool :=
  match afterConstAssign s with
  | some r =>
    match matchWordCS "function" r with
    | some r2 => afterSpacesParen r2
    | none => false
  | none => false

/-- Pattern `\bconst\s+\w+\s*=\s*\([^)]*\)\s*=>` (case-sensitive). -/
def patConstArrow (s : List Char) : Bool :=
  match afterConstAssign s with
  | some ('(' :: r) =>
    match r.dropWhile (fun c => c ≠ ')') with
    | ')' :: r2 =>
      match dropJsSpaces r2 with
      | '=' :: '>' :: _ => true
      | _ => false
    | _ => false
  | _ => false

def hasFunctionDeclaration (code : String) : Bool :=
  scanWithBoundary patFunctionDecl code.data ||
  scanWithBoundary patConstFunction code.data ||
  scanWithBoundary patConstArrow code.data

/-- Pattern `\breturn\s+` (case-sensitive). -/
def hasReturnStatement (code : String) : Bool :=
  scanWithBoundary
    (fun s =>
      match matchWordCS "return" s with
      | some (c :: _) => isJsSpaceChar c
      | _ => false)
    code.data

/-- The capture group of `\breturn\s+([^;]+)` on the text following
"return": greedy `\s+` with backtracking so that `[^;]+` gets at least one
character. -/
def retCapture (s : List Char) : Option (List Char) :=
  let ws := s.takeWhile isJsSpaceChar
  let rest := s.dropWhile isJsSpaceChar
  match ws with
  | [] => none
  | _ =>
    match rest with
    | c :: _ =>
      if c = ';' then
        if 2 ≤ ws.length then ws.getLast?.map (fun x => [x]) else none
      else some (rest.takeWhile (fun x => x ≠ ';'))
    | [] => if 2 ≤ ws.length then ws.getLast?.map (fun x => [x]) else none

/-- Leftmost match of `code.match(/\breturn\s+([^;]+)/)`, returning the
captured group. -/
def findRetAux : Bool → List Char → Option (List Char)
  | _, [] => none
  | prevWord, c :: cs =>
    match
      (if !prevWord then
         match matchWordCS "return" (c :: cs) with
         | some rest => retCapture rest
         | none => none
       else none) with
    | some cap => some cap
    | none => findRetAux (isWordChar c) cs

def findReturnValue (code : String) : Option (List Char) :=
  findRetAux false code.data

def jsTrimList (s : List Char) : List Char :=
  ((s.dropWhile isJsSpaceChar).reverse.dropWhile isJsSpaceChar).reverse

/-- JS `String.prototype.trim`. -/
def jsTrim (s : String) : String := ⟨jsTrimList s.data⟩

def containsSub (pat : String) (s : List Char) : Bool :=
  scanAnywhere (fun t => (matchWordCS pat t).isSome) s

/-- The "Return value must be COOPERATE or DEFECT" heuristic: the trimmed
capture of the first `return` mentions neither payoff label nor any
construct implying conditional computation. -/
def returnValueSuspicious (code : String) : Bool :=
  match findReturnValue code with
  | none => false
  | some cap =>
    let rv := jsTrimList cap
    if containsSub "COOPERATE" rv || containsSub "DEFECT" rv then false
    else if containsSub "opponent_history" rv || containsSub "." rv ||
            containsSub "[" rv || containsSub "(" rv || containsSub "===" rv ||
            containsSub "!==" rv || containsSub "if" rv || containsSub "else" rv ||
            containsSub "ternary" rv then false
    else true

structure ValidationResult where
  isValid : Bool
  error : Option String
deriving Repr, DecidableEq

/-- `validateCode` of code-security.ts. The error strings are the source's
message templates; the source interpolates the matched fragment into the
dangerous-pattern message, modeled here by the fixed template prefix. -/
def validateCode (code : String) : ValidationResult :=
  if code = "" then
    { isValid := false, error := some "Code must be a non-empty string" }
  else if hasDangerousPattern code then
    { isValid := false, error := some "Security violation: Dangerous pattern detected" }
  else if hasFunctionDeclaration code then
    { isValid := false
      error := some "Do not write a function declaration. Write only the function body code. The function wrapper is added automatically." }
  else if !(hasReturnStatement code) then
    { isValid := false, error := some "Code must contain a return statement" }
  else if returnValueSuspicious code then
    { isValid := false, error := some "Return value must be COOPERATE or DEFECT" }
  else if 10000 < code.length then
    { isValid := false, error := some "Code is too long (max 10,000 characters)" }
  else { isValid := true, error := none }

/-! ## Compiled-function cache and direct executor
(src/utils/directExecutor, `createCacheKey`, `validateAndCacheFunction`,
`executeDirect`). Cached strategy functions are modeled as
`List String → Option String`, where `none` models a thrown exception. The
worker round-trip and the `new Function` compilation are not themselves
modeled; their outcomes enter `validateAndCacheFunction` as explicit
`Except` parameters. -/

/-- `createCacheKey(code, COOPERATE, DEFECT) = code.trim() + '|' + COOPERATE
+ '|' + DEFECT`. -/
def createCacheKey (code cooperateLabel defectLabel : String) : String :=
  jsTrim code ++ "|" ++ cooperateLabel ++ "|" ++ defectLabel

def lookupFn {α : Type} (m : List (String × α)) (k : String) : Option α :=
  (m.find? (fun e => e.1 = k)).map (fun e => e.2)

/-- JS `Map.set`: replace the entry if the key is present, else append. -/
def setFn {α : Type} (m : List (String × α)) (k : String) (v : α) :
    List (String × α) :=
  if (m.find? (fun e => e.1 = k)).isSome then
    m.map (fun e => if e.1 = k then (k, v) else e)
  else m ++ [(k, v)]

def deleteFn {α : Type} (m : List (String × α)) (k : String) :
    List (String × α) :=
  m.filter (fun e => e.1 ≠ k)

structure DirectCache where
  functionCache : List (String × (List String → Option String))
  validatedCodes : List String

/-- JS `validation.error || 'Invalid code'` (empty string is falsy). -/
def errOrDefault (e : Option String) : String :=
  match e with
  | some s => if s = "" then "Invalid code" else s
  | none => "Invalid code"

/-- `validateAndCacheFunction`: validate, skip when already validated and
cached, otherwise run the worker compilation test (outcome `workerTest`),
compile in the calling context (outcome `compiled`, also covering the
"must return a function" check) and store the callable under the cache key. -/
def validateAndCacheFunction (workerTest : Except String Unit)
    (compiled : Except String (List String → Option String))
    (cache : DirectCache) (code cooperateLabel defectLabel : String) :
    Except String DirectCache :=
  if (validateCode code).isValid = false then
    Except.error (errOrDefault (validateCode code).error)
  else
    let trimmedCode := jsTrim code
    let cacheKey := createCacheKey trimmedCode cooperateLabel defectLabel
    if cache.validatedCodes.contains cacheKey &&
        (lookupFn cache.functionCache cacheKey).isSome then
      Except.ok cache
    else
      match workerTest with
      | Except.error e => Except.error e
      | Except.ok _ =>
        match compiled with
        | Except.error e => Except.error e
        | Except.ok f =>
          Except.ok { functionCache := setFn cache.functionCache cacheKey f
                      validatedCodes := cache.validatedCodes ++ [cacheKey] }

/-- `executeDirect`: run the cached function for this code; on a throw or an
invalid return value the entry is evicted and the error propagates. The
second component is the cache after the call. -/
def executeDirect (cache : DirectCache)
    (code cooperateLabel defectLabel : String)
    (opponent_history : List String) : Except String String × DirectCache :=
  let trimmedCode := jsTrim code
  if trimmedCode = "" then (Except.error "Code cannot be empty", cache)
  else
    let cacheKey := createCacheKey trimmedCode cooperateLabel defectLabel
    match lookupFn cache.functionCache cacheKey with
    | none =>
      (Except.error "Code not validated. Please validate code first using validateAndCacheFunction.",
       cache)
    | some f =>
      match f opponent_history with
      | none =>
        (Except.error "strategy function threw",
         { cache with functionCache := deleteFn cache.functionCache cacheKey })
      | some result =>
        if result ≠ cooperateLabel ∧ result ≠ defectLabel then
          (Except.error "Invalid return value",
           { cache with functionCache := deleteFn cache.functionCache cacheKey })
        else (Except.ok result, cache)

/-! ## Custom strategy (src/game_components/strategies/custom.tsx) -/

structure Custom where
  strategyCode : String

/-- `Custom.setStrategyCode`: validate, throwing (modeled as `Except.error`)
before the code is stored or any caching is triggered. -/
def Custom.setStrategyCode (c : Custom) (code : String) : Except String Custom :=
  if (validateCode code).isValid = false then
    Except.error (errOrDefault (validateCode code).error)
  else Except.ok { strategyCode := code }

/-- `Custom.strategy`, parametric in the executor so that independence from
the executor can be stated: validation failure returns Cooperate without
consulting the executor; an executor error also falls back to Cooperate. -/
def Custom.strategyWith
    (exec : DirectCache → String → String → String → List String →
      Except String String × DirectCache)
    (cache : DirectCache) (c : Custom) (opponent_history : List String) :
    String × DirectCache :=
  if (validateCode c.strategyCode).isValid = false then (COOPERATE, cache)
  else
    match exec cache c.strategyCode COOPERATE DEFECT opponent_history with
    | (Except.ok result, cache2) => (result, cache2)
    | (Except.error _, cache2) => (COOPERATE, cache2)

def Custom.strategy : DirectCache → Custom → List String → String × DirectCache :=
  Custom.strategyWith executeDirect

lemma validateCode_of_dangerous (code : String)
    (h : hasDangerousPattern code = true) :
    validateCode code = ⟨false, some "Code must be a non-empty string"⟩ ∨
    validateCode code = ⟨false, some "Security violation: Dangerous pattern detected"⟩ := by
  unfold validateCode
  by_cases hc : code = ""
  · simp [hc]
  · simp [hc, h]

/-- C4: a snippet matching the dangerous-pattern denylist always fails
`validateCode` with a non-empty error reason, `setStrategyCode` throws on
it before caching, and `Custom.strategy` returns Cooperate without
consulting any executor at all. -/
theorem dangerous_snippet_rejected (code : String)
    (h : hasDangerousPattern code = true) :
    (validateCode code).isValid = false ∧
    (∃ msg, (validateCode code).error = some msg ∧ msg ≠ "") ∧
    (∀ c : Custom, ∃ msg, c.setStrategyCode code = Except.error msg ∧ msg ≠ "") ∧
    (∀ exec cache opponent_history,
       Custom.strategyWith exec cache { strategyCode := code }
         opponent_history = (COOPERATE, cache)) := by
  rcases validateCode_of_dangerous code h with hv | hv
  · exact ⟨by rw [hv],
      ⟨"Code must be a non-empty string", by rw [hv], by decide⟩,
      fun c => ⟨"Code must be a non-empty string",
        by unfold Custom.setStrategyCode; rw [hv]; rfl, by decide⟩,
      fun exec cache opponent_history => by
        unfold Custom.strategyWith; rw [hv]; rfl⟩
  · exact ⟨by rw [hv],
      ⟨"Security violation: Dangerous pattern detected", by rw [hv], by decide⟩,
      fun c => ⟨"Security violation: Dangerous pattern detected",
        by unfold Custom.setStrategyCode; rw [hv]; rfl, by decide⟩,
      fun exec cache opponent_history => by
        unfold Custom.strategyWith; rw [hv]; rfl⟩

/-- C4 witness: the snippet "return window" matches the denylist (global
`window` reference); it is rejected and the strategy falls back to
Cooperate without executing. -/
theorem dangerous_snippet_rejected_witness :
    hasDangerousPattern "return window" = true ∧
    (validateCode "return window").isValid = false ∧
    Custom.strategyWith executeDirect ⟨[], []⟩ ⟨"return window"⟩ [] =
      (COOPERATE, ⟨[], []⟩) :=
  ⟨by decide, (dangerous_snippet_rejected "return window" (by decide)).1,
   (dangerous_snippet_rejected "return window" (by decide)).2.2.2
     executeDirect ⟨[], []⟩ []⟩

/-- C6 counterexample: two snippets differing in exactly one byte (a
trailing space) receive the same cache key, hence the same compiled-function
cache entry — `createCacheKey` trims the snippet before keying. -/
theorem cache_key_trim_collision :
    ("return COOPERATE;" : String) ≠ "return COOPERATE; " ∧
    ("return COOPERATE; " : String).length =
      ("return COOPERATE;" : String).length + 1 ∧
    createCacheKey "return COOPERATE;" "C" "D" =
      createCacheKey "return COOPERATE; " "C" "D" := by
  decide

/-- C6 (amended): the cache key is a deterministic function of the trimmed
snippet text plus the two payoff-label constants; snippets whose trimmed
texts differ — in particular any one-byte change outside leading or
trailing whitespace — receive distinct cache keys and hence distinct cache
entries. -/
theorem cache_key_injective_on_trimmed (a b cooperateLabel defectLabel : String)
    (h : jsTrim a ≠ jsTrim b) :
    createCacheKey a cooperateLabel defectLabel ≠
      createCacheKey b cooperateLabel defectLabel := by
  intro hk
  apply h
  unfold createCacheKey at hk
  have hd : (jsTrim a).data ++ ("|" ++ cooperateLabel ++ "|" ++ defectLabel).data =
      (jsTrim b).data ++ ("|" ++ cooperateLabel ++ "|" ++ defectLabel).data := by
    have := congrArg String.data hk
    simpa [String.data_append, List.append_assoc] using this
  exact String.ext (List.append_cancel_right hd)

/-- C6 witness for the amended claim: two snippets with different trimmed
texts get distinct cache keys. -/
theorem cache_key_injective_on_trimmed_witness :
    jsTrim "return COOPERATE;" ≠ jsTrim "return DEFECT;" ∧
    createCacheKey "return COOPERATE;" "C" "D" ≠
      createCacheKey "return DEFECT;" "C" "D" :=
  ⟨by decide,
   cache_key_injective_on_trimmed "return COOPERATE;" "return DEFECT;" "C" "D"
     (by decide)⟩

/-! ## Worker pool manager (src/utils/strategyWorkerManager.ts)
The pool is an association list keyed by `hashCode(code.trim()).toString(36)`
with JS `Map` first-occurrence semantics. The asynchronous `executeInWorker`
is modeled by its synchronous pool transitions: the cleanup pass, the
acquire step (reuse an idle ready worker or create a new one), and the
`setTimeout` timeout handler of lines 290-298. -/

structure WorkerPoolEntry where
  isReady : Bool
  isBusy : Bool
  lastUsed : Nat
deriving Repr, DecidableEq

abbrev WorkerPool := List (String × WorkerPoolEntry)

def poolLookup : WorkerPool → String → Option WorkerPoolEntry
  | [], _ => none
  | e :: t, k => if e.1 = k then some e.2 else poolLookup t k

/-- JS `Map.set`: overwrite the entry at the key, else append. -/
def poolSet : WorkerPool → String → WorkerPoolEntry → WorkerPool
  | [], k, v => [(k, v)]
  | e :: t, k, v => if e.1 = k then (k, v) :: t else e :: poolSet t k v

/-- JS `Map.delete`. -/
def poolDelete : WorkerPool → String → WorkerPool
  | [], _ => []
  | e :: t, k => if e.1 = k then t else e :: poolDelete t k

/-- The number of pool entries currently marked busy. -/
def busyCount (p : WorkerPool) : Nat := p.countP (fun e => e.2.isBusy)

/-- The Java-style 32-bit string hash of `hashCode`:
`hash = ((hash << 5) - hash) + charCode`, truncated to a signed 32-bit
integer at each step (`hash = hash & hash`). -/
def toInt32 (n : Int) : Int := (n + 2 ^ 31) % 2 ^ 32 - 2 ^ 31

def hashCode (code : String) : Int :=
  code.data.foldl (fun h c => toInt32 (toInt32 (h * 2 ^ 5) - h + c.toNat)) 0

def digitChar36 (d : Nat) : Char :=
  if d < 10 then Char.ofNat (48 + d) else Char.ofNat (87 + d)

/-- Base-36 digits of a natural number (fuel-based so that it is structurally
recursive; `n + 1` units of fuel always suffice). -/
def natToBase36Aux : Nat → Nat → List Char
  | 0, _ => []
  | fuel + 1, n =>
    if n < 36 then [digitChar36 n]
    else natToBase36Aux fuel (n / 36) ++ [digitChar36 (n % 36)]

def natToBase36 (n : Nat) : List Char := natToBase36Aux (n + 1) n

/-- JS `Number.prototype.toString(36)` for integers. -/
def intToString36 (i : Int) : String :=
  if i < 0 then "-" ++ ⟨natToBase36 i.natAbs⟩ else ⟨natToBase36 i.toNat⟩

/-- The pool lookup key of `executeInWorker`:
`hashCode(code.trim()).toString(36)`. -/
def codeKeyOf (code : String) : String := intToString36 (hashCode (jsTrim code))

structure AcquireResult where
  pool : WorkerPool
  isNewWorker : Bool
deriving Repr, DecidableEq

/-- The acquire step of `executeInWorker`: reuse the pooled worker for this
key when it is idle and ready (marking it busy), otherwise create a fresh
worker entry (not ready, busy) stored under the key. -/
def acquireWorker (pool : WorkerPool) (codeKey : String) (now : Nat) :
    AcquireResult :=
  match poolLookup pool codeKey with
  | some e =>
    if !e.isBusy && e.isReady then
      { pool := poolSet pool codeKey { e with isBusy := true, lastUsed := now }
        isNewWorker := false }
    else
      { pool := poolSet pool codeKey ⟨false, true, now⟩, isNewWorker := true }
  | none => { pool := poolSet pool codeKey ⟨false, true, now⟩, isNewWorker := true }

/-- The `setTimeout` timeout handler (strategyWorkerManager.ts lines
290-298): a newly created worker is terminated and deleted from the pool; a
reused worker merely has its busy flag cleared. -/
def timeoutCleanup (pool : WorkerPool) (codeKey : String) (isNewWorker : Bool) :
    WorkerPool :=
  if isNewWorker then poolDelete pool codeKey
  else
    match poolLookup pool codeKey with
    | some e => poolSet pool codeKey { e with isBusy := false }
    | none => pool

def MAX_WORKER_AGE : Nat := 60000

def MAX_POOL_SIZE : Nat := 5

def insertByLastUsed (x : String × WorkerPoolEntry) :
    List (String × WorkerPoolEntry) → List (String × WorkerPoolEntry)
  | [] => [x]
  | y :: ys =>
    if x.2.lastUsed ≤ y.2.lastUsed then x :: y :: ys
    else y :: insertByLastUsed x ys

def sortByLastUsed : List (String × WorkerPoolEntry) →
    List (String × WorkerPoolEntry)
  | [] => []
  | x :: xs => insertByLastUsed x (sortByLastUsed xs)

/-- The keys scheduled for eviction when the pool exceeds the size cap: the
least-recently-used idle entries beyond `MAX_POOL_SIZE`. -/
def capToRemove (afterAge : WorkerPool) : WorkerPool :=
  (sortByLastUsed (afterAge.filter (fun e => !e.2.isBusy))).take
    (afterAge.length - MAX_POOL_SIZE)

/-- The size-cap stage of `cleanupWorkerPool`. -/
def cleanupCap (afterAge : WorkerPool) : WorkerPool :=
  if MAX_POOL_SIZE < afterAge.length then
    afterAge.filter (fun e => !((capToRemove afterAge).any (fun f => f.1 == e.1)))
  else afterAge

/-- `cleanupWorkerPool`: drop idle entries older than `MAX_WORKER_AGE`, then
if the pool still exceeds `MAX_POOL_SIZE`, delete the least-recently-used
idle entries (by key) down to the cap. -/
def cleanupWorkerPool (pool : WorkerPool) (now : Nat) : WorkerPool :=
  cleanupCap (pool.filter
    (fun e => e.2.isBusy || decide (now - e.2.lastUsed ≤ MAX_WORKER_AGE)))

/-- The pool-state trajectory of one `executeInWorker` call whose execution
exceeds its timeout: cleanup pass, acquire, then the timeout handler. -/
def executeTimeoutPath (pool : WorkerPool) (code : String) (now : Nat) :
    WorkerPool :=
  timeoutCleanup
    (acquireWorker (cleanupWorkerPool pool now) (codeKeyOf code) now).pool
    (codeKeyOf code)
    (acquireWorker (cleanupWorkerPool pool now) (codeKeyOf code) now).isNewWorker

/-- C9 counterexample: "Aa" and "BB" are distinct snippets with the same
32-bit hash, hence the same pool key; with an idle ready worker pooled under
that key (created for "Aa"), the acquire step for "BB" reuses it
(`isNewWorker = false`) instead of creating a worker of its own — the pool
key does not identify the snippet uniquely. -/
theorem hash_collision_worker_reuse :
    ("Aa" : String) ≠ "BB" ∧
    hashCode (jsTrim "Aa") = hashCode (jsTrim "BB") ∧
    codeKeyOf "Aa" = codeKeyOf "BB" ∧
    (acquireWorker [(codeKeyOf "Aa", ⟨true, false, 0⟩)] (codeKeyOf "BB") 1).isNewWorker
      = false := by
  decide

lemma poolLookup_poolSet_ne (p : WorkerPool) (k k' : String)
    (v : WorkerPoolEntry) (h : k' ≠ k) :
    poolLookup (poolSet p k v) k' = poolLookup p k' := by
  induction p with
  | nil => simp [poolSet, poolLookup, Ne.symm h]
  | cons e t ih =>
    by_cases he : e.1 = k
    · simp only [poolSet, if_pos he, poolLookup]
      rw [if_neg (by simpa using Ne.symm h), if_neg (he ▸ Ne.symm h)]
    · simp only [poolSet, if_neg he, poolLookup, ih]

/-- C9 (amended): a pooled worker is pinned to its pool key — the 32-bit
hash of the trimmed source rendered in base 36 — rather than to a snippet.
Dispatching a snippet only ever touches the entry at that snippet's own
key, so for two snippets with distinct keys the second snippet's request is
never routed to (and never alters) the worker pooled under the first
snippet's key; the key does not, however, identify the snippet uniquely —
snippets whose trimmed sources collide under the hash share a pool slot. -/
theorem distinct_key_no_cross_dispatch (pool : WorkerPool) (a b : String)
    (now : Nat) (h : codeKeyOf a ≠ codeKeyOf b) :
    poolLookup (acquireWorker pool (codeKeyOf b) now).pool (codeKeyOf a) =
      poolLookup pool (codeKeyOf a) := by
  unfold acquireWorker
  rcases hl : poolLookup pool (codeKeyOf b) with _ | e
  · exact poolLookup_poolSet_ne pool (codeKeyOf b) (codeKeyOf a) _ h
  · dsimp only
    split
    · exact poolLookup_poolSet_ne pool (codeKeyOf b) (codeKeyOf a) _ h
    · exact poolLookup_poolSet_ne pool (codeKeyOf b) (codeKeyOf a) _ h

/-- C9 witness for the amended claim: "Aa" and "x" have distinct pool keys,
so dispatching "x" leaves the entry pooled for "Aa" untouched. -/
theorem distinct_key_no_cross_dispatch_witness :
    codeKeyOf "Aa" ≠ codeKeyOf "x" ∧
    poolLookup
        (acquireWorker [(codeKeyOf "Aa", ⟨true, false, 0⟩)] (codeKeyOf "x") 1).pool
        (codeKeyOf "Aa") =
      poolLookup [(codeKeyOf "Aa", ⟨true, false, 0⟩)] (codeKeyOf "Aa") :=
  ⟨by decide,
   distinct_key_no_cross_dispatch [(codeKeyOf "Aa", ⟨true, false, 0⟩)] "Aa" "x" 1
     (by decide)⟩

/-! Association-list lemmas for the pool-state analysis of a timed-out call. -/


lemma countP_filter_of_imp {α : Type} (l : List α) (p q : α → Bool)
    (h : ∀ e ∈ l, q e = true → p e = true) :
    (l.filter p).countP q = l.countP q := by
  induction l with
  | nil => rfl
  | cons a t ih =>
    have ht : ∀ e ∈ t, q e = true → p e = true :=
      fun e he => h e (List.mem_cons_of_mem a he)
    have ih' := ih ht
    by_cases hp : p a = true
    · simp [List.filter_cons, hp, List.countP_cons, ih']
    · have hp' : p a = false := by
        cases hpa : p a
        · rfl
        · exact absurd hpa hp
      have hq : q a = false := by
        cases hqa : q a
        · rfl
        · exact absurd (h a (List.mem_cons_self a t) hqa) hp
      simp [List.filter_cons, hp', List.countP_cons, ih', hq]

lemma eq_of_keys_nodup {β : Type} (l : List (String × β))
    (h : (l.map (fun e => e.1)).Nodup) {e f : String × β}
    (he : e ∈ l) (hf : f ∈ l) (hk : e.1 = f.1) : e = f := by
  induction l with
  | nil => cases he
  | cons a t ih =>
    rw [List.map_cons, List.nodup_cons] at h
    rcases List.mem_cons.mp he with rfl | he' <;>
      rcases List.mem_cons.mp hf with rfl | hf'
    · rfl
    · exact absurd (hk ▸ List.mem_map_of_mem (fun e => e.1) hf') h.1
    · exact absurd (hk ▸ List.mem_map_of_mem (fun e => e.1) he') h.1
    · exact ih h.2 he' hf'

lemma mem_insertByLastUsed (x y : String × WorkerPoolEntry)
    (l : List (String × WorkerPoolEntry)) :
    x ∈ insertByLastUsed y l ↔ x = y ∨ x ∈ l := by
  induction l with
  | nil => simp [insertByLastUsed]
  | cons a t ih =>
    unfold insertByLastUsed
    split
    · simp [List.mem_cons]
    · simp only [List.mem_cons, ih]
      tauto

lemma mem_sortByLastUsed (x : String × WorkerPoolEntry)
    (l : List (String × WorkerPoolEntry)) :
    x ∈ sortByLastUsed l ↔ x ∈ l := by
  induction l with
  | nil => simp [sortByLastUsed]
  | cons a t ih =>
    unfold sortByLastUsed
    rw [mem_insertByLastUsed, ih, List.mem_cons]

lemma cleanupCap_sublist (l : WorkerPool) : List.Sublist (cleanupCap l) l := by
  unfold cleanupCap
  split
  · exact List.filter_sublist l
  · exact List.Sublist.refl l

lemma cleanup_sublist (pool : WorkerPool) (now : Nat) :
    List.Sublist (cleanupWorkerPool pool now) pool :=
  (cleanupCap_sublist _).trans (List.filter_sublist pool)

lemma busyCount_cleanupCap (l : WorkerPool)
    (hnd : (l.map (fun e => e.1)).Nodup) :
    busyCount (cleanupCap l) = busyCount l := by
  unfold cleanupCap busyCount
  split
  · apply countP_filter_of_imp
    intro e he hb
    cases hany : (capToRemove l).any (fun f => f.1 == e.1)
    · rfl
    · exfalso
      obtain ⟨f, hfmem, hfeq⟩ := List.any_eq_true.mp hany
      have hf1 : f ∈ sortByLastUsed (l.filter (fun x => !x.2.isBusy)) :=
        List.mem_of_mem_take hfmem
      have hf2 : f ∈ l.filter (fun x => !x.2.isBusy) :=
        (mem_sortByLastUsed f _).mp hf1
      have hf3 : f ∈ l := List.mem_of_mem_filter hf2
      have hfnb : f.2.isBusy = false := by
        simpa using List.of_mem_filter hf2
      have hef : e = f := eq_of_keys_nodup l hnd he hf3 (eq_of_beq hfeq).symm
      rw [hef, hfnb] at hb
      cases hb
  · rfl

lemma busyCount_cleanup (pool : WorkerPool) (now : Nat)
    (hnd : (pool.map (fun e => e.1)).Nodup) :
    busyCount (cleanupWorkerPool pool now) = busyCount pool := by
  unfold cleanupWorkerPool
  rw [busyCount_cleanupCap _
    (List.Nodup.sublist ((List.filter_sublist pool).map (fun e => e.1)) hnd)]
  unfold busyCount
  apply countP_filter_of_imp
  intro e he hb
  simp [hb]

lemma poolLookup_mem (p : WorkerPool) (k : String) (v : WorkerPoolEntry)
    (h : poolLookup p k = some v) : (k, v) ∈ p := by
  induction p with
  | nil => cases h
  | cons e t ih =>
    by_cases he : e.1 = k
    · rw [poolLookup, if_pos he] at h
      cases h
      rw [← he]
      exact List.mem_cons_self e t
    · rw [poolLookup, if_neg he] at h
      exact List.mem_cons_of_mem e (ih h)

lemma poolLookup_eq_none_of_forall (p : WorkerPool) (k : String)
    (h : ∀ e ∈ p, e.1 ≠ k) : poolLookup p k = none := by
  induction p with
  | nil => rfl
  | cons e t ih =>
    rw [poolLookup, if_neg (h e (List.mem_cons_self e t))]
    exact ih (fun f hf => h f (List.mem_cons_of_mem e hf))

lemma forall_ne_of_poolLookup_eq_none (p : WorkerPool) (k : String)
    (h : poolLookup p k = none) : ∀ e ∈ p, e.1 ≠ k := by
  induction p with
  | nil => intro e he; cases he
  | cons e t ih =>
    by_cases he : e.1 = k
    · rw [poolLookup, if_pos he] at h
      cases h
    · rw [poolLookup, if_neg he] at h
      intro f hf
      rcases List.mem_cons.mp hf with rfl | hf'
      · exact he
      · exact ih h f hf'

lemma poolLookup_sublist_none (p q : WorkerPool) (k : String)
    (hsub : List.Sublist q p) (h : poolLookup p k = none) :
    poolLookup q k = none :=
  poolLookup_eq_none_of_forall q k
    (fun e he => forall_ne_of_poolLookup_eq_none p k h e (hsub.subset he))

lemma poolLookup_sublist_some (p q : WorkerPool) (k : String)
    (e : WorkerPoolEntry) (hsub : List.Sublist q p)
    (hnd : (p.map (fun x => x.1)).Nodup) (h : poolLookup p k = some e) :
    poolLookup q k = none ∨ poolLookup q k = some e := by
  rcases hq : poolLookup q k with _ | v
  · exact Or.inl rfl
  · right
    have hv : (k, v) ∈ p := hsub.subset (poolLookup_mem q k v hq)
    have he : (k, e) ∈ p := poolLookup_mem p k e h
    have := eq_of_keys_nodup p hnd hv he rfl
    cases this
    rfl

lemma poolSet_of_lookup_none (p : WorkerPool) (k : String) (v : WorkerPoolEntry)
    (h : poolLookup p k = none) : poolSet p k v = p ++ [(k, v)] := by
  induction p with
  | nil => rfl
  | cons e t ih =>
    by_cases he : e.1 = k
    · rw [poolLookup, if_pos he] at h
      cases h
    · rw [poolLookup, if_neg he] at h
      rw [poolSet, if_neg he, ih h]
      rfl

lemma poolDelete_append_of_none (p : WorkerPool) (k : String)
    (v : WorkerPoolEntry) (h : poolLookup p k = none) :
    poolDelete (p ++ [(k, v)]) k = p := by
  induction p with
  | nil => simp [poolDelete]
  | cons e t ih =>
    by_cases he : e.1 = k
    · rw [poolLookup, if_pos he] at h
      cases h
    · rw [poolLookup, if_neg he] at h
      rw [List.cons_append, poolDelete, if_neg he, ih h]

lemma poolLookup_poolSet_self (p : WorkerPool) (k : String)
    (v : WorkerPoolEntry) : poolLookup (poolSet p k v) k = some v := by
  induction p with
  | nil => simp [poolSet, poolLookup]
  | cons e t ih =>
    by_cases he : e.1 = k
    · rw [poolSet, if_pos he, poolLookup, if_pos rfl]
    · rw [poolSet, if_neg he, poolLookup, if_neg he]
      exact ih

lemma poolSet_poolSet (p : WorkerPool) (k : String) (v w : WorkerPoolEntry) :
    poolSet (poolSet p k v) k w = poolSet p k w := by
  induction p with
  | nil => simp [poolSet]
  | cons e t ih =>
    by_cases he : e.1 = k
    · rw [poolSet, if_pos he, poolSet, if_pos rfl, poolSet, if_pos he]
    · rw [poolSet, if_neg he, poolSet, if_neg he, ih, poolSet, if_neg he]

lemma busyCount_poolSet_eq (p : WorkerPool) (k : String)
    (e v : WorkerPoolEntry) (h : poolLookup p k = some e)
    (hb : v.isBusy = e.isBusy) : busyCount (poolSet p k v) = busyCount p := by
  induction p with
  | nil => cases h
  | cons a t ih =>
    by_cases ha : a.1 = k
    · rw [poolLookup, if_pos ha] at h
      cases h
      rw [poolSet, if_pos ha]
      unfold busyCount
      rw [List.countP_cons, List.countP_cons]
      simp only [hb]
    · rw [poolLookup, if_neg ha] at h
      rw [poolSet, if_neg ha]
      unfold busyCount
      rw [List.countP_cons, List.countP_cons]
      have := ih h
      unfold busyCount at this
      rw [this]

lemma poolDelete_poolSet (p : WorkerPool) (k : String) (v : WorkerPoolEntry) :
    poolDelete (poolSet p k v) k = poolDelete p k := by
  induction p with
  | nil => simp [poolSet, poolDelete]
  | cons e t ih =>
    by_cases he : e.1 = k
    · rw [poolSet, if_pos he, poolDelete, if_pos rfl, poolDelete, if_pos he]
    · rw [poolSet, if_neg he, poolDelete, if_neg he, ih, poolDelete, if_neg he]

lemma busyCount_poolDelete (p : WorkerPool) (k : String) (e : WorkerPoolEntry)
    (h : poolLookup p k = some e) (hb : e.isBusy = false) :
    busyCount (poolDelete p k) = busyCount p := by
  induction p with
  | nil => cases h
  | cons a t ih =>
    by_cases ha : a.1 = k
    · rw [poolLookup, if_pos ha] at h
      cases h
      rw [poolDelete, if_pos ha]
      unfold busyCount
      rw [List.countP_cons]
      simp [hb]
    · rw [poolLookup, if_neg ha] at h
      rw [poolDelete, if_neg ha]
      unfold busyCount
      rw [List.countP_cons, List.countP_cons]
      have := ih h
      unfold busyCount at this
      rw [this]

lemma poolLookup_eq_none_of_not_mem_keys (p : WorkerPool) (k : String)
    (h : k ∉ p.map (fun e => e.1)) : poolLookup p k = none :=
  poolLookup_eq_none_of_forall p k
    (fun e he hek => h (hek ▸ List.mem_map_of_mem (fun e => e.1) he))

lemma poolLookup_poolDelete_self (p : WorkerPool) (k : String)
    (hnd : (p.map (fun e => e.1)).Nodup) :
    poolLookup (poolDelete p k) k = none := by
  induction p with
  | nil => rfl
  | cons e t ih =>
    rw [List.map_cons, List.nodup_cons] at hnd
    by_cases he : e.1 = k
    · rw [poolDelete, if_pos he]
      exact poolLookup_eq_none_of_not_mem_keys t k (he ▸ hnd.1)
    · rw [poolDelete, if_neg he, poolLookup, if_neg he]
      exact ih hnd.2

lemma busyCount_append_single (p : WorkerPool) (k : String)
    (v : WorkerPoolEntry) :
    busyCount (p ++ [(k, v)]) = busyCount p + (if v.isBusy then 1 else 0) := by
  unfold busyCount
  rw [List.countP_append, List.countP_cons]
  simp

lemma acquire_timeout_pool (q : WorkerPool) (k : String) (now : Nat)
    (hnd : (q.map (fun e => e.1)).Nodup)
    (h : poolLookup q k = none ∨
         ∃ e, poolLookup q k = some e ∧ e.isBusy = false) :
    busyCount (timeoutCleanup (acquireWorker q k now).pool k
        (acquireWorker q k now).isNewWorker) = busyCount q ∧
    ((acquireWorker q k now).isNewWorker = true →
      poolLookup (timeoutCleanup (acquireWorker q k now).pool k
        (acquireWorker q k now).isNewWorker) k = none) ∧
    ((acquireWorker q k now).isNewWorker = false →
      ∃ e2, poolLookup (timeoutCleanup (acquireWorker q k now).pool k
        (acquireWorker q k now).isNewWorker) k = some e2 ∧ e2.isBusy = false) := by
  rcases h with hnone | ⟨e, hsome, hnb⟩
  · have ha : acquireWorker q k now = ⟨poolSet q k ⟨false, true, now⟩, true⟩ := by
      simp only [acquireWorker, hnone]
    have ht : timeoutCleanup (poolSet q k ⟨false, true, now⟩) k true = q := by
      rw [timeoutCleanup, if_pos rfl, poolSet_of_lookup_none q k _ hnone,
        poolDelete_append_of_none q k _ hnone]
    rw [ha]
    dsimp only
    rw [ht]
    exact ⟨rfl, fun _ => hnone, fun hf => absurd hf (by decide)⟩
  · cases hr : e.isReady
    · have ha : acquireWorker q k now = ⟨poolSet q k ⟨false, true, now⟩, true⟩ := by
        simp only [acquireWorker, hsome, hnb, hr]
        rfl
      have ht : timeoutCleanup (poolSet q k ⟨false, true, now⟩) k true =
          poolDelete q k := by
        rw [timeoutCleanup, if_pos rfl, poolDelete_poolSet]
      rw [ha]
      dsimp only
      rw [ht]
      exact ⟨busyCount_poolDelete q k e hsome hnb,
        fun _ => poolLookup_poolDelete_self q k hnd,
        fun hf => absurd hf (by decide)⟩
    · have ha : acquireWorker q k now =
          ⟨poolSet q k ⟨e.isReady, true, now⟩, false⟩ := by
        simp only [acquireWorker, hsome, hnb, hr]
        rfl
      have ht : timeoutCleanup (poolSet q k ⟨e.isReady, true, now⟩) k false =
          poolSet q k ⟨e.isReady, false, now⟩ := by
        rw [timeoutCleanup, if_neg (show ¬(false = true) by decide),
          poolLookup_poolSet_self]
        exact poolSet_poolSet q k _ _
      rw [ha]
      dsimp only
      rw [ht]
      exact ⟨busyCount_poolSet_eq q k e ⟨e.isReady, false, now⟩ hsome (by rw [hnb]),
        fun hf => absurd hf (by decide),
        fun _ => ⟨⟨e.isReady, false, now⟩, poolLookup_poolSet_self q k _, rfl⟩⟩

/-- C5: for a valid Custom snippet whose worker execution times out, the
worker round-trip rejects with the timeout error before anything is cached,
`Custom.strategy` returns Cooperate for the round (the error never escapes
the strategy boundary), and the pool's busy-entry count after the timeout
handler equals its pre-call value — a newly created worker is removed from
the pool, a reused worker has its busy flag cleared. The pool hypotheses
(unique keys; the entry under this snippet's key, if any, idle) are the JS
`Map` invariant and the state left by any completed previous call. -/
theorem timeout_fallback_and_busy_restore
    (c : Custom) (cache : DirectCache) (opponent_history : List String)
    (pool : WorkerPool) (now : Nat) (tmsg : String)
    (compiled : Except String (List String → Option String))
    (hval : (validateCode c.strategyCode).isValid = true)
    (hmiss : lookupFn cache.functionCache
        (createCacheKey (jsTrim c.strategyCode) COOPERATE DEFECT) = none)
    (hnd : (pool.map (fun e => e.1)).Nodup)
    (hidle : poolLookup pool (codeKeyOf c.strategyCode) = none ∨
        ∃ e, poolLookup pool (codeKeyOf c.strategyCode) = some e ∧
          e.isBusy = false) :
    validateAndCacheFunction (Except.error tmsg) compiled cache
        c.strategyCode COOPERATE DEFECT = Except.error tmsg ∧
    Custom.strategy cache c opponent_history = (COOPERATE, cache) ∧
    busyCount (executeTimeoutPath pool c.strategyCode now) = busyCount pool ∧
    ((acquireWorker (cleanupWorkerPool pool now) (codeKeyOf c.strategyCode)
        now).isNewWorker = true →
      poolLookup (executeTimeoutPath pool c.strategyCode now)
        (codeKeyOf c.strategyCode) = none) ∧
    ((acquireWorker (cleanupWorkerPool pool now) (codeKeyOf c.strategyCode)
        now).isNewWorker = false →
      ∃ e2, poolLookup (executeTimeoutPath pool c.strategyCode now)
        (codeKeyOf c.strategyCode) = some e2 ∧ e2.isBusy = false) := by
  have h1 : validateAndCacheFunction (Except.error tmsg) compiled cache
      c.strategyCode COOPERATE DEFECT = Except.error tmsg := by
    simp [validateAndCacheFunction, hval, hmiss]
  have h2 : Custom.strategy cache c opponent_history = (COOPERATE, cache) := by
    by_cases htr : jsTrim c.strategyCode = ""
    · simp [Custom.strategy, Custom.strategyWith, executeDirect, hval, htr]
    · simp [Custom.strategy, Custom.strategyWith, executeDirect, hval, htr, hmiss]
  have hsubq := cleanup_sublist pool now
  have hndq : ((cleanupWorkerPool pool now).map (fun e => e.1)).Nodup :=
    List.Nodup.sublist (hsubq.map (fun e => e.1)) hnd
  have hidleq : poolLookup (cleanupWorkerPool pool now) (codeKeyOf c.strategyCode) = none ∨
      ∃ e, poolLookup (cleanupWorkerPool pool now) (codeKeyOf c.strategyCode) = some e ∧
        e.isBusy = false := by
    rcases hidle with hn | ⟨e, hs, hb⟩
    · exact Or.inl (poolLookup_sublist_none pool _ _ hsubq hn)
    · rcases poolLookup_sublist_some pool _ _ e hsubq hnd hs with hq | hq
      · exact Or.inl hq
      · exact Or.inr ⟨e, hq, hb⟩
  obtain ⟨hb1, hb2, hb3⟩ := acquire_timeout_pool (cleanupWorkerPool pool now)
    (codeKeyOf c.strategyCode) now hndq hidleq
  refine ⟨h1, h2, ?_, hb2, hb3⟩
  unfold executeTimeoutPath
  rw [hb1, busyCount_cleanup pool now hnd]

/-- C5 witness: a valid snippet, an empty compiled-function cache and an
empty pool; the worker test outcome is the timeout error. -/
theorem timeout_fallback_and_busy_restore_witness :
    (validateCode "return COOPERATE;").isValid = true ∧
    lookupFn (DirectCache.mk [] []).functionCache
      (createCacheKey (jsTrim "return COOPERATE;") COOPERATE DEFECT) = none ∧
    (([] : WorkerPool).map (fun e => e.1)).Nodup ∧
    poolLookup ([] : WorkerPool) (codeKeyOf "return COOPERATE;") = none ∧
    (validateAndCacheFunction
        (Except.error "Strategy execution timed out after 1000ms")
        (Except.error "unused") ⟨[], []⟩ "return COOPERATE;" COOPERATE DEFECT =
          Except.error "Strategy execution timed out after 1000ms" ∧
     Custom.strategy ⟨[], []⟩ ⟨"return COOPERATE;"⟩ [] = (COOPERATE, ⟨[], []⟩) ∧
     busyCount (executeTimeoutPath [] "return COOPERATE;" 0) =
       busyCount ([] : WorkerPool) ∧
     ((acquireWorker (cleanupWorkerPool [] 0) (codeKeyOf "return COOPERATE;")
         0).isNewWorker = true →
       poolLookup (executeTimeoutPath [] "return COOPERATE;" 0)
         (codeKeyOf "return COOPERATE;") = none) ∧
     ((acquireWorker (cleanupWorkerPool [] 0) (codeKeyOf "return COOPERATE;")
         0).isNewWorker = false →
       ∃ e2, poolLookup (executeTimeoutPath [] "return COOPERATE;" 0)
         (codeKeyOf "return COOPERATE;") = some e2 ∧ e2.isBusy = false)) :=
  ⟨by decide, rfl, List.nodup_nil, rfl,
   timeout_fallback_and_busy_restore ⟨"return COOPERATE;"⟩ ⟨[], []⟩ [] [] 0
     "Strategy execution timed out after 1000ms" (Except.error "unused")
     (by decide) rfl List.nodup_nil (Or.inl rfl)⟩
